import Mathlib

/-!
Verification development for the midi-clip-splitter core
(`src/lib/midi/transform.ts`, `src/lib/midi/writer.ts`, `src/lib/midi/parser.ts`,
and the step-range computation of `ExportPanel.handleExport`).

The TypeScript functions are shallowly embedded as executable Lean
definitions over lists; ticks are modelled as `Int` (all tick arithmetic in
the source is exact integer arithmetic for the inputs considered here),
and JavaScript `Map`s / `Set`s, whose iteration follows insertion order,
are modelled as association lists ordered by insertion.
-/

set_option maxHeartbeats 1000000

namespace MidiClip

/-- Event kinds, mirroring the string tags used by the TypeScript event model
(`noteOn`, `noteOff`, `cc`, `programChange`, `pitchBend`, `aftertouch`,
`channelAftertouch`, `meta`, `sysex`, `unknown`). -/
inductive EType where
  | noteOn
  | noteOff
  | cc
  | programChange
  | pitchBend
  | aftertouch
  | channelAftertouch
  | meta
  | sysex
  | unknown
deriving DecidableEq, Repr

/-- The MIDIEvent record: the fields that are optional in the TypeScript
interface are `Option`-valued here (`undefined` becomes `none`). -/
structure MIDIEvent where
  type : EType
  deltaTime : Int
  absoluteTime : Int
  channel : Option Nat := none
  note : Option Nat := none
  velocity : Option Nat := none
  controller : Option Nat := none
  value : Option Int := none
  program : Option Nat := none
deriving DecidableEq, Repr

/-- A track is its event list (the summary fields of MIDITrack play no role
in the claims considered here). -/
structure MIDITrack where
  events : List MIDIEvent
deriving DecidableEq, Repr

/-- OutputTrackConfig from the TypeScript types: source track indices,
optional channel allow-list, and the strip-program-change flag. -/
structure OutputTrackConfig where
  sourceTracks : List Nat
  channelFilter : Option (List Nat) := none
  stripProgramChange : Bool := false
deriving DecidableEq, Repr

/-- Stable insertion into a time-sorted list: the new element goes after every
element with a strictly smaller time and before equal-time elements that came
later in the original order. -/
def insertByTime (e : MIDIEvent) : List MIDIEvent → List MIDIEvent
  | [] => [e]
  | x :: xs =>
    if x.absoluteTime < e.absoluteTime then x :: insertByTime e xs
    else e :: x :: xs

/-- Every `.sort((a, b) => a.absoluteTime - b.absoluteTime)` call in the
source. JavaScript `Array.prototype.sort` is stable (ECMA-262), and the
stable sort of a list under a total preorder is unique, so the stable
insertion sort used here computes exactly the source's result. -/
def sortByTime : List MIDIEvent → List MIDIEvent
  | [] => []
  | e :: rest => insertByTime e (sortByTime rest)

/-- The delta-time recomputation loop shared by `mergeTracks` and
`splitEventsBySteps`: `event.deltaTime = event.absoluteTime - lastTime`
with `lastTime` initially 0. -/
def recalcDeltas : Int → List MIDIEvent → List MIDIEvent
  | _, [] => []
  | lastTime, e :: rest =>
    { e with deltaTime := e.absoluteTime - lastTime } :: recalcDeltas e.absoluteTime rest

/-- The channel-filter test of `mergeTracks`: with a non-empty allow-list,
an event passes only when its channel is defined and listed
(`event.channel === undefined || !channelFilter.includes(event.channel)`
causes a drop). -/
def passesChannelFilter (cf : Option (List Nat)) (e : MIDIEvent) : Bool :=
  match cf with
  | none => true
  | some f =>
    if f.isEmpty then true
    else
      match e.channel with
      | none => false
      | some c => f.contains c

/-- The per-event keep test of `mergeTracks` (channel filter, optional
program-change strip, unconditional sysex/unknown drop). -/
def keepEvent (config : OutputTrackConfig) (e : MIDIEvent) : Bool :=
  passesChannelFilter config.channelFilter e
    && !(config.stripProgramChange && decide (e.type = EType.programChange))
    && !(decide (e.type = EType.sysex) || decide (e.type = EType.unknown))

/-- Event collection phase of `mergeTracks`: for each listed source index,
take the track (skipping missing indices) and push copies of the events
that pass the filters, in order. -/
def collectedEvents (tracks : List MIDITrack) (config : OutputTrackConfig) : List MIDIEvent :=
  config.sourceTracks.flatMap fun i =>
    match tracks.get? i with
    | none => []
    | some tr => tr.events.filter (keepEvent config)

/-- `mergeTracks` from `transform.ts`: collect, sort by absolute time,
recompute delta times. -/
def mergeTracks (tracks : List MIDITrack) (config : OutputTrackConfig) : List MIDIEvent :=
  recalcDeltas 0 (sortByTime (collectedEvents tracks config))

/-- `ticksPerStep = (ppq * TIME_SIGNATURE_NUMERATOR) / stepsPerBar` with
`TIME_SIGNATURE_NUMERATOR = 4`; exact whenever `stepsPerBar` divides
`ppq * 4`, which holds for all inputs considered by the claims. -/
def ticksPerStep (ppq stepsPerBar : Nat) : Nat := ppq * 4 / stepsPerBar

/-- `maxTicks = maxSteps * ticksPerStep`. -/
def maxTicksPerClip (maxSteps ppq stepsPerBar : Nat) : Nat :=
  maxSteps * ticksPerStep ppq stepsPerBar

/-- Key of the `noteLifecycles` map. The source builds the string
`` `${event.channel}-${event.note}` `` and later parses it back with
`noteKey.split('-').map(Number)`; for events with defined channel and note
this is exactly the pair, which is how we model the key. -/
abbrev NoteKey := Option Nat × Option Nat

/-- Key of an event, as used for the lifecycle map and the hanging-note set. -/
def noteKeyOf (e : MIDIEvent) : NoteKey := (e.channel, e.note)

/-- One entry of the lifecycle map: `{ noteOn: MIDIEvent; noteOff?: MIDIEvent }`. -/
structure NoteLifecycle where
  noteOn : MIDIEvent
  noteOff : Option MIDIEvent := none
deriving DecidableEq, Repr

/-- The lifecycle map is a JavaScript `Map` iterated in insertion order,
modelled as an association list. -/
abbrev LifecycleMap := List (NoteKey × List NoteLifecycle)

/-- Handling of a `noteOn` event while building the lifecycle map: push a new
open lifecycle onto the list for its key, creating the key on first use. -/
def addNoteOn : LifecycleMap → NoteKey → MIDIEvent → LifecycleMap
  | [], k, e => [(k, [{ noteOn := e }])]
  | (k', ls) :: rest, k, e =>
    if k' = k then (k', ls ++ [{ noteOn := e }]) :: rest
    else (k', ls) :: addNoteOn rest k e

/-- Handling of a `noteOff` event: the source looks at
`lifecycle[lifecycle.length - 1]` (the most recently pushed entry) and sets
its `noteOff` only when that entry has none; earlier entries are never
revisited and a `noteOff` arriving when the last entry is already closed is
discarded. -/
def setLastNoteOff : List NoteLifecycle → MIDIEvent → List NoteLifecycle
  | [], _ => []
  | [l], e => if l.noteOff.isNone then [{ l with noteOff := some e }] else [l]
  | l :: l' :: ls, e => l :: setLastNoteOff (l' :: ls) e

/-- Apply `setLastNoteOff` at the given key of the map (no-op for an absent key). -/
def addNoteOff : LifecycleMap → NoteKey → MIDIEvent → LifecycleMap
  | [], _, _ => []
  | (k', ls) :: rest, k, e =>
    if k' = k then (k', setLastNoteOff ls e) :: rest
    else (k', ls) :: addNoteOff rest k e

/-- The lifecycle-construction pass of `splitEventsBySteps`
(`transform.ts` lines 69-90). -/
def noteLifecycles (events : List MIDIEvent) : LifecycleMap :=
  events.foldl
    (fun m e =>
      match e.type with
      | EType.noteOn => addNoteOn m (noteKeyOf e) e
      | EType.noteOff => addNoteOff m (noteKeyOf e) e
      | _ => m)
    []

/-- Window membership test of the copy pass:
`event.absoluteTime >= currentChunkStart && event.absoluteTime < chunkEnd`. -/
def inWindow (start : Int) (maxTicks : Nat) (e : MIDIEvent) : Bool :=
  decide (start ≤ e.absoluteTime) && decide (e.absoluteTime < start + maxTicks)

/-- Re-basing of a copied event: subtract the window start. -/
def rebase (start : Int) (e : MIDIEvent) : MIDIEvent :=
  { e with absoluteTime := e.absoluteTime - start }

/-- First pass of a window: copy every event of the window, re-based. -/
def copiedEvents (events : List MIDIEvent) (start : Int) (maxTicks : Nat) : List MIDIEvent :=
  (events.filter (inWindow start maxTicks)).map (rebase start)

/-- The synthetic `noteOn` inserted at re-based tick 0 for a note sounding
at the window start, carrying the original channel, note and velocity. -/
def synthNoteOn (lc : NoteLifecycle) : MIDIEvent :=
  { type := EType.noteOn, deltaTime := 0, absoluteTime := 0,
    channel := lc.noteOn.channel, note := lc.noteOn.note, velocity := lc.noteOn.velocity }

/-- The synthetic `noteOff` closing a hanging note at `maxTicks - 1` with
velocity 0 (channel and note recovered from the key). -/
def closeNoteOff (key : NoteKey) (maxTicks : Nat) : MIDIEvent :=
  { type := EType.noteOff, deltaTime := 0, absoluteTime := (maxTicks : Int) - 1,
    channel := key.1, note := key.2, velocity := some 0 }

/-- `noteEndsAfterChunkStart`: `!noteOff || noteOff.absoluteTime > start`
(note the strict inequality in the source). -/
def endsAfter (t : Int) (lc : NoteLifecycle) : Bool :=
  match lc.noteOff with
  | none => true
  | some off => decide (t < off.absoluteTime)

/-- `noteEndsAfterChunkEnd`: `!noteOff || noteOff.absoluteTime >= chunkEnd`. -/
def endsAtOrAfter (t : Int) (lc : NoteLifecycle) : Bool :=
  match lc.noteOff with
  | none => true
  | some off => decide (t ≤ off.absoluteTime)

/-- `Set.add` of `notesToContinue`: JavaScript sets keep first-insertion
order and ignore duplicates. -/
def addKeyOnce (ks : List NoteKey) (k : NoteKey) : List NoteKey :=
  if k ∈ ks then ks else ks ++ [k]

/-- Body of the cross-boundary pass for one lifecycle entry
(`transform.ts` lines 112-144): possibly emit a synthetic `noteOn` and
possibly mark the key as continuing past the window end. -/
def boundaryStep (start : Int) (maxTicks : Nat)
    (acc : List MIDIEvent × List NoteKey) (p : NoteKey × NoteLifecycle) :
    List MIDIEvent × List NoteKey :=
  let key := p.1
  let lc := p.2
  let acc1 : List MIDIEvent × List NoteKey :=
    if decide (lc.noteOn.absoluteTime < start) && endsAfter start lc then
      (acc.1 ++ [synthNoteOn lc],
        if endsAtOrAfter (start + maxTicks) lc then addKeyOnce acc.2 key else acc.2)
    else acc
  if decide (start ≤ lc.noteOn.absoluteTime) && decide (lc.noteOn.absoluteTime < start + maxTicks)
      && endsAtOrAfter (start + maxTicks) lc then
    (acc1.1, addKeyOnce acc1.2 key)
  else acc1

/-- Flattening of the nested `noteLifecycles.forEach` / `lifecycle.forEach`
iteration, in iteration order. -/
def lifecyclePairs (m : LifecycleMap) : List (NoteKey × NoteLifecycle) :=
  m.flatMap fun kv => kv.2.map fun lc => (kv.1, lc)

/-- Second pass of a window: the synthetic `noteOn`s (in iteration order) and
the set of keys to close at the window end. -/
def boundaryEvents (m : LifecycleMap) (start : Int) (maxTicks : Nat) :
    List MIDIEvent × List NoteKey :=
  (lifecyclePairs m).foldl (boundaryStep start maxTicks) ([], [])

/-- One iteration of the chunk loop: copied events, synthetic `noteOn`s,
synthetic closing `noteOff`s, then sort and delta recomputation. -/
def buildChunk (events : List MIDIEvent) (m : LifecycleMap) (start : Int) (maxTicks : Nat) :
    List MIDIEvent :=
  let copied := copiedEvents events start maxTicks
  let bd := boundaryEvents m start maxTicks
  let closes := bd.2.map fun k => closeNoteOff k maxTicks
  recalcDeltas 0 (sortByTime (copied ++ bd.1 ++ closes))

/-- The `while (currentChunkStart < totalTicks)` loop, written with an
explicit iteration budget so that it is structurally recursive: each
iteration advances `start` by `maxTicks`, so for a positive `maxTicks` the
loop runs at most `totalTicks.toNat + 1` times, which is the budget the
caller supplies (for `maxTicks = 0` with positive `totalTicks` the source
loop would not terminate; no claim concerns that configuration). -/
def splitLoop (events : List MIDIEvent) (m : LifecycleMap) (maxTicks : Nat)
    (totalTicks : Int) : Nat → Int → List (List MIDIEvent)
  | 0, _ => []
  | fuel + 1, start =>
    if start < totalTicks then
      buildChunk events m start maxTicks ::
        splitLoop events m maxTicks totalTicks fuel (start + maxTicks)
    else []

/-- `splitEventsBySteps` from `transform.ts` (lines 49-174): empty input
yields one empty clip; a stream whose last tick fits in one window is
returned unchanged; otherwise the stream is cut into windows of
`maxTicks` ticks with cross-boundary note repair. -/
def splitEventsBySteps (events : List MIDIEvent) (maxSteps ppq stepsPerBar : Nat) :
    List (List MIDIEvent) :=
  match events.getLast? with
  | none => [[]]
  | some lastEvent =>
    let maxTicks := maxTicksPerClip maxSteps ppq stepsPerBar
    let totalTicks := lastEvent.absoluteTime
    if totalTicks ≤ (maxTicks : Int) then [events]
    else splitLoop events (noteLifecycles events) maxTicks totalTicks (totalTicks.toNat + 1) 0

/-- `ticksToSteps` from `parser.ts`: `Math.floor(ticks / ticksPerStep)`,
i.e. floor division. -/
def ticksToSteps (ticks : Int) (ppq stepsPerBar : Nat) : Int :=
  Int.fdiv ticks (ticksPerStep ppq stepsPerBar)

/-- `calculateSteps` from `parser.ts`: `Math.ceil(ticks / ticksPerStep)`,
i.e. ceiling division, expressed through floor of the negation. -/
def calculateSteps (ticks : Int) (ppq stepsPerBar : Nat) : Int :=
  -(Int.fdiv (-ticks) (ticksPerStep ppq stepsPerBar))

/-- Step range assigned to clip `index` by `ExportPanel.handleExport`:
`startStep = index * maxStepsPerClip`,
`endStep = min(startStep + maxStepsPerClip, ticksToSteps(duration))`. -/
def stepRange (index maxSteps : Nat) (durSteps : Int) : Int × Int :=
  ((index * maxSteps : Nat), min ((index * maxSteps + maxSteps : Nat) : Int) durSteps)

/-- Step ranges of all clips, in clip order. -/
def stepRanges (numClips maxSteps : Nat) (durSteps : Int) : List (Int × Int) :=
  (List.range numClips).map fun k => stepRange k maxSteps durSteps

/-- Ascending insertion of an integer into a sorted list (the
`times.sort((a, b) => a - b)` call of `writer.ts`; for numbers the sorted
result is unique, so an insertion sort computes it exactly). -/
def insertIntAsc (x : Int) : List Int → List Int
  | [] => [x]
  | y :: ys => if y < x then y :: insertIntAsc x ys else x :: y :: ys

/-- Ascending sort of a list of integers. -/
def sortIntAsc : List Int → List Int
  | [] => []
  | x :: xs => insertIntAsc x (sortIntAsc xs)

/-- The per-key sorted noteOff time array built by `writeMIDIFile`:
the `absoluteTime`s of the `noteOff` events with the given defined channel
and note, in stream order, then sorted ascending. -/
def noteOffTimes (events : List MIDIEvent) (c n : Nat) : List Int :=
  sortIntAsc ((events.filter fun e =>
      decide (e.type = EType.noteOff) && decide (e.channel = some c)
        && decide (e.note = some n)).map
    fun e => e.absoluteTime)

/-- `findNextNoteOff` of `writer.ts`: a binary search returning the leftmost
element of the sorted array strictly greater than `noteOnTime`; on the
sorted list this is the first element satisfying the predicate. The lookup
does not consume the element: successive calls see the same array. -/
def findNextNoteOff (times : List Int) (noteOnTime : Int) : Option Int :=
  times.find? fun x => decide (noteOnTime < x)

/-- The noteOff time `writeMIDIFile` uses for the duration of a `noteOn`
at `noteOnTime` on `(channel c, note n)` (`none` means the 0.25-beat
default duration is used). -/
def writerNoteOffChoice (events : List MIDIEvent) (c n : Nat) (noteOnTime : Int) : Option Int :=
  findNextNoteOff (noteOffTimes events c n) noteOnTime

/-- Enqueue an open noteOn for FIFO matching (per-key queue, insertion order). -/
def enqueueOpen : List (NoteKey × List MIDIEvent) → NoteKey → MIDIEvent →
    List (NoteKey × List MIDIEvent)
  | [], k, e => [(k, [e])]
  | (k', q) :: rest, k, e =>
    if k' = k then (k', q ++ [e]) :: rest
    else (k', q) :: enqueueOpen rest k e

/-- Dequeue the earliest still-open noteOn for a key, if any. -/
def dequeueOpen : List (NoteKey × List MIDIEvent) → NoteKey →
    Option MIDIEvent × List (NoteKey × List MIDIEvent)
  | [], _ => (none, [])
  | (k', q) :: rest, k =>
    if k' = k then
      match q with
      | [] => (none, (k', q) :: rest)
      | x :: xs => (some x, (k', xs) :: rest)
    else
      let r := dequeueOpen rest k
      (r.1, (k', q) :: r.2)

/-- Modelled from the spec: the FIFO matching policy of §4.3 / §4.4 — scanning
the stream in order, each NoteOn is enqueued per (channel, note) key, and
each NoteOff is matched to (and consumes) the earliest still-open NoteOn for
its key, an unmatched NoteOff pairing with nothing. This is the reference
policy the claims compare the code against; no function of the source
implements it directly. -/
def fifoStep (st : List (NoteKey × List MIDIEvent) × List (MIDIEvent × MIDIEvent))
    (e : MIDIEvent) : List (NoteKey × List MIDIEvent) × List (MIDIEvent × MIDIEvent) :=
  match e.type with
  | EType.noteOn => (enqueueOpen st.1 (noteKeyOf e) e, st.2)
  | EType.noteOff =>
    let r := dequeueOpen st.1 (noteKeyOf e)
    match r.1 with
    | none => (r.2, st.2)
    | some onEv => (r.2, st.2 ++ [(onEv, e)])
  | _ => st

/-- Modelled from the spec: the (NoteOn, NoteOff) pairs produced by FIFO
matching over a stream, in matching order. -/
def fifoPairs (events : List MIDIEvent) : List (MIDIEvent × MIDIEvent) :=
  (events.foldl fifoStep ([], [])).2

/-- An event with its `deltaTime` forgotten: delta recomputation changes only
this field, so two events equal after `eraseDelta` agree on kind, time,
channel, note, velocity and the remaining payload. -/
def eraseDelta (e : MIDIEvent) : MIDIEvent := { e with deltaTime := 0 }

/-- Non-decreasing `absoluteTime` along a stream. -/
def timesSorted (l : List MIDIEvent) : Prop :=
  l.Pairwise fun a b => a.absoluteTime ≤ b.absoluteTime

/-- Delta-time consistency: the deltas of the first `i + 1` events sum to the
`i`-th event's `absoluteTime` (so the first event's delta is its own
`absoluteTime`). -/
def deltasConsistent (l : List MIDIEvent) : Prop :=
  ∀ i (h : i < l.length),
    ((l.take (i + 1)).map (fun e => e.deltaTime)).sum = (l.get ⟨i, h⟩).absoluteTime

end MidiClip

namespace MidiClip

/-! ### Example streams used by witnesses and counterexamples -/

/-- NoteOn at tick 100 on (channel 0, note 60), velocity 100. -/
def exOn100 : MIDIEvent :=
  { type := EType.noteOn, deltaTime := 100, absoluteTime := 100,
    channel := some 0, note := some 60, velocity := some 100 }

/-- Matching NoteOff at tick 20100. -/
def exOff20100 : MIDIEvent :=
  { type := EType.noteOff, deltaTime := 20000, absoluteTime := 20100,
    channel := some 0, note := some 60, velocity := some 0 }

/-- The boundary-continuity example stream of the spec: one 20000-tick note. -/
def exLong : List MIDIEvent := [exOn100, exOff20100]

/-- First of two overlapping NoteOns on (0, 60). -/
def ovOn0 : MIDIEvent :=
  { type := EType.noteOn, deltaTime := 0, absoluteTime := 0,
    channel := some 0, note := some 60, velocity := some 100 }

/-- Second overlapping NoteOn at tick 10. -/
def ovOn10 : MIDIEvent :=
  { type := EType.noteOn, deltaTime := 10, absoluteTime := 10,
    channel := some 0, note := some 60, velocity := some 90 }

/-- First NoteOff at tick 20. -/
def ovOff20 : MIDIEvent :=
  { type := EType.noteOff, deltaTime := 10, absoluteTime := 20,
    channel := some 0, note := some 60, velocity := some 0 }

/-- Second NoteOff at tick 30. -/
def ovOff30 : MIDIEvent :=
  { type := EType.noteOff, deltaTime := 10, absoluteTime := 30,
    channel := some 0, note := some 60, velocity := some 0 }

/-- Two overlapping same-pitch notes: NoteOn(0), NoteOn(10), NoteOff(20), NoteOff(30). -/
def exOverlap : List MIDIEvent := [ovOn0, ovOn10, ovOff20, ovOff30]

/-- NoteOn at tick 0 for the small splitting examples. -/
def smOn0 : MIDIEvent :=
  { type := EType.noteOn, deltaTime := 0, absoluteTime := 0,
    channel := some 0, note := some 60, velocity := some 100 }

/-- NoteOff at tick 5 (last event of the C3 counterexample stream). -/
def smOff5 : MIDIEvent :=
  { type := EType.noteOff, deltaTime := 5, absoluteTime := 5,
    channel := some 0, note := some 60, velocity := some 0 }

/-- Stream whose last tick (5) is odd relative to ticksPerStep = 2. -/
def exShort : List MIDIEvent := [smOn0, smOff5]

/-- NoteOff exactly at tick 4, the start of the second window in the C4
counterexample (window width 4). -/
def bdOff4 : MIDIEvent :=
  { type := EType.noteOff, deltaTime := 4, absoluteTime := 4,
    channel := some 0, note := some 60, velocity := some 0 }

/-- NoteOn at tick 5 on note 61. -/
def bdOn5 : MIDIEvent :=
  { type := EType.noteOn, deltaTime := 1, absoluteTime := 5,
    channel := some 0, note := some 61, velocity := some 80 }

/-- NoteOff at tick 6 on note 61. -/
def bdOff6 : MIDIEvent :=
  { type := EType.noteOff, deltaTime := 1, absoluteTime := 6,
    channel := some 0, note := some 61, velocity := some 0 }

/-- Stream in which note 60 ends exactly on the second window's start tick. -/
def exBoundary : List MIDIEvent := [smOn0, bdOff4, bdOn5, bdOff6]

/-- Meta event with no channel field. -/
def exMeta : MIDIEvent := { type := EType.meta, deltaTime := 0, absoluteTime := 0 }

/-- Channel-0 NoteOn for the merge examples. -/
def exCh0 : MIDIEvent :=
  { type := EType.noteOn, deltaTime := 0, absoluteTime := 0,
    channel := some 0, note := some 60, velocity := some 100 }

/-- Channel-1 NoteOn for the merge examples. -/
def exCh1 : MIDIEvent :=
  { type := EType.noteOn, deltaTime := 0, absoluteTime := 0,
    channel := some 1, note := some 62, velocity := some 100 }

/-- Track containing a channel-less meta event and a channel-0 note. -/
def exTrack0 : MIDITrack := { events := [exMeta, exCh0] }

/-- Track containing a channel-1 note. -/
def exTrack1 : MIDITrack := { events := [exCh1] }

/-- Output config merging both tracks with channel allow-list [0]. -/
def exCfg : OutputTrackConfig := { sourceTracks := [0, 1], channelFilter := some [0] }

/-- NoteOff exactly at tick 15360, the window width of the default-like
settings (128 steps, ppq 480, 16 steps per bar): the equality case of the
degenerate split. -/
def exOffEq : MIDIEvent :=
  { type := EType.noteOff, deltaTime := 15260, absoluteTime := 15360,
    channel := some 0, note := some 60, velocity := some 0 }

/-! ### Delta-recomputation lemmas -/

theorem length_recalcDeltas (t : Int) (l : List MIDIEvent) :
    (recalcDeltas t l).length = l.length := by
  induction l generalizing t with
  | nil => rfl
  | cons e rest ih => simp [recalcDeltas, ih]

theorem map_eraseDelta_recalcDeltas (t : Int) (l : List MIDIEvent) :
    (recalcDeltas t l).map eraseDelta = l.map eraseDelta := by
  induction l generalizing t with
  | nil => rfl
  | cons e rest ih => simp [recalcDeltas, eraseDelta, ih]

theorem map_absTime_recalcDeltas (t : Int) (l : List MIDIEvent) :
    (recalcDeltas t l).map (fun e => e.absoluteTime) = l.map (fun e => e.absoluteTime) := by
  induction l generalizing t with
  | nil => rfl
  | cons e rest ih => simp [recalcDeltas, ih]

theorem mem_recalcDeltas_of_mem {e : MIDIEvent} {l : List MIDIEvent} (t : Int) (h : e ∈ l) :
    ∃ e', e' ∈ recalcDeltas t l ∧ eraseDelta e' = eraseDelta e := by
  have hmem : eraseDelta e ∈ (recalcDeltas t l).map eraseDelta := by
    rw [map_eraseDelta_recalcDeltas]
    exact List.mem_map_of_mem _ h
  obtain ⟨e', he', heq⟩ := List.mem_map.mp hmem
  exact ⟨e', he', heq⟩

theorem exists_mem_of_mem_recalcDeltas {e' : MIDIEvent} {l : List MIDIEvent} {t : Int}
    (h : e' ∈ recalcDeltas t l) : ∃ e, e ∈ l ∧ eraseDelta e' = eraseDelta e := by
  have hmem : eraseDelta e' ∈ l.map eraseDelta := by
    rw [← map_eraseDelta_recalcDeltas t]
    exact List.mem_map_of_mem _ h
  obtain ⟨e, he, heq⟩ := List.mem_map.mp hmem
  exact ⟨e, he, heq.symm⟩

theorem absTime_eraseDelta (e : MIDIEvent) : (eraseDelta e).absoluteTime = e.absoluteTime := rfl

theorem recalcDeltas_take_sum (t : Int) (l : List MIDIEvent) (i : Nat) (h : i < l.length) :
    (((recalcDeltas t l).take (i + 1)).map (fun e => e.deltaTime)).sum
      = (l.get ⟨i, h⟩).absoluteTime - t := by
  induction l generalizing t i with
  | nil => cases h
  | cons e rest ih =>
    cases i with
    | zero => simp [recalcDeltas]
    | succ j =>
      have hj : j < rest.length := Nat.lt_of_succ_lt_succ h
      have := ih e.absoluteTime j hj
      simp only [recalcDeltas, List.take_succ_cons, List.map_cons, List.sum_cons, this,
        List.get_cons_succ]
      omega

theorem absTime_get_recalcDeltas (t : Int) (l : List MIDIEvent) (i : Nat)
    (h : i < (recalcDeltas t l).length) (h' : i < l.length) :
    ((recalcDeltas t l).get ⟨i, h⟩).absoluteTime = (l.get ⟨i, h'⟩).absoluteTime := by
  induction l generalizing t i with
  | nil => cases h'
  | cons e rest ih =>
    cases i with
    | zero => simp [recalcDeltas]
    | succ j =>
      simp only [recalcDeltas, List.get_cons_succ]
      exact ih e.absoluteTime j _ (Nat.lt_of_succ_lt_succ h')

theorem deltasConsistent_recalcDeltas (l : List MIDIEvent) :
    deltasConsistent (recalcDeltas 0 l) := by
  intro i h
  have h' : i < l.length := by
    have := length_recalcDeltas 0 l
    omega
  rw [recalcDeltas_take_sum 0 l i h']
  have hget : ((recalcDeltas 0 l).get ⟨i, h⟩).absoluteTime = (l.get ⟨i, h'⟩).absoluteTime :=
    absTime_get_recalcDeltas 0 l i h h'
  omega

theorem timesSorted_recalcDeltas (t : Int) {l : List MIDIEvent} (h : timesSorted l) :
    timesSorted (recalcDeltas t l) := by
  have h1 : (l.map (fun e => e.absoluteTime)).Pairwise (fun a b : Int => a ≤ b) :=
    List.pairwise_map.mpr h
  have h2 : ((recalcDeltas t l).map (fun e => e.absoluteTime)).Pairwise
      (fun a b : Int => a ≤ b) := by
    rw [map_absTime_recalcDeltas]; exact h1
  exact List.pairwise_map.mp h2

/-! ### Sorting lemmas -/

theorem insertByTime_perm (e : MIDIEvent) (l : List MIDIEvent) :
    (insertByTime e l).Perm (e :: l) := by
  induction l with
  | nil => exact List.Perm.refl _
  | cons x xs ih =>
    unfold insertByTime
    split
    · exact (List.Perm.cons x ih).trans (List.Perm.swap e x xs)
    · exact List.Perm.refl _

theorem sortByTime_perm (l : List MIDIEvent) : (sortByTime l).Perm l := by
  induction l with
  | nil => exact List.Perm.refl _
  | cons e rest ih =>
    exact (insertByTime_perm e (sortByTime rest)).trans (List.Perm.cons e ih)

theorem mem_sortByTime {e : MIDIEvent} {l : List MIDIEvent} : e ∈ sortByTime l ↔ e ∈ l :=
  (sortByTime_perm l).mem_iff

theorem mem_insertByTime {y e : MIDIEvent} {l : List MIDIEvent} (h : y ∈ insertByTime e l) :
    y = e ∨ y ∈ l :=
  List.mem_cons.mp ((insertByTime_perm e l).mem_iff.mp h)

theorem timesSorted_insertByTime (e : MIDIEvent) {l : List MIDIEvent} (h : timesSorted l) :
    timesSorted (insertByTime e l) := by
  induction l with
  | nil => exact List.pairwise_singleton _ _
  | cons x xs ih =>
    have hx : ∀ y ∈ xs, x.absoluteTime ≤ y.absoluteTime := (List.pairwise_cons.mp h).1
    have hxs : timesSorted xs := (List.pairwise_cons.mp h).2
    unfold insertByTime
    split
    · refine List.pairwise_cons.mpr ⟨?_, ih hxs⟩
      intro y hy
      rcases mem_insertByTime hy with rfl | hy'
      · omega
      · exact hx y hy'
    · refine List.pairwise_cons.mpr ⟨?_, h⟩
      intro y hy
      rcases List.mem_cons.mp hy with rfl | hy'
      · omega
      · have := hx y hy'
        omega

theorem timesSorted_sortByTime (l : List MIDIEvent) : timesSorted (sortByTime l) := by
  induction l with
  | nil => exact List.Pairwise.nil
  | cons e rest ih => exact timesSorted_insertByTime e ih

theorem timesSorted_nil : timesSorted [] := List.Pairwise.nil

theorem deltasConsistent_nil : deltasConsistent [] := by
  intro i h
  cases h

/-! ### Well-formedness of merged streams and chunks -/

theorem timesSorted_mergeTracks (tracks : List MIDITrack) (config : OutputTrackConfig) :
    timesSorted (mergeTracks tracks config) :=
  timesSorted_recalcDeltas 0 (timesSorted_sortByTime _)

theorem deltasConsistent_mergeTracks (tracks : List MIDITrack) (config : OutputTrackConfig) :
    deltasConsistent (mergeTracks tracks config) :=
  deltasConsistent_recalcDeltas _

theorem timesSorted_buildChunk (ev : List MIDIEvent) (m : LifecycleMap) (s : Int) (mt : Nat) :
    timesSorted (buildChunk ev m s mt) :=
  timesSorted_recalcDeltas 0 (timesSorted_sortByTime _)

theorem deltasConsistent_buildChunk (ev : List MIDIEvent) (m : LifecycleMap) (s : Int) (mt : Nat) :
    deltasConsistent (buildChunk ev m s mt) :=
  deltasConsistent_recalcDeltas _

theorem mem_buildChunk_of_mem_parts {x : MIDIEvent} {ev : List MIDIEvent} {m : LifecycleMap}
    {s : Int} {mt : Nat}
    (h : x ∈ copiedEvents ev s mt ++ (boundaryEvents m s mt).1
        ++ (boundaryEvents m s mt).2.map (fun k => closeNoteOff k mt)) :
    ∃ e, e ∈ buildChunk ev m s mt ∧ eraseDelta e = eraseDelta x := by
  have hs : x ∈ sortByTime (copiedEvents ev s mt ++ (boundaryEvents m s mt).1
      ++ (boundaryEvents m s mt).2.map (fun k => closeNoteOff k mt)) :=
    mem_sortByTime.mpr h
  exact mem_recalcDeltas_of_mem 0 hs

theorem exists_part_of_mem_buildChunk {e : MIDIEvent} {ev : List MIDIEvent} {m : LifecycleMap}
    {s : Int} {mt : Nat} (h : e ∈ buildChunk ev m s mt) :
    ∃ x, (x ∈ copiedEvents ev s mt ++ (boundaryEvents m s mt).1
        ++ (boundaryEvents m s mt).2.map (fun k => closeNoteOff k mt))
      ∧ eraseDelta e = eraseDelta x := by
  obtain ⟨x, hx, heq⟩ := exists_mem_of_mem_recalcDeltas h
  exact ⟨x, mem_sortByTime.mp hx, heq⟩

end MidiClip

namespace MidiClip

/-! ### Boundary-pass fold lemmas -/

theorem mem_addKeyOnce_self (ks : List NoteKey) (k : NoteKey) : k ∈ addKeyOnce ks k := by
  unfold addKeyOnce
  split
  · assumption
  · exact List.mem_append_right _ (List.mem_singleton_self k)

theorem mem_addKeyOnce_of_mem {ks : List NoteKey} {k : NoteKey} (k' : NoteKey) (h : k ∈ ks) :
    k ∈ addKeyOnce ks k' := by
  unfold addKeyOnce
  split
  · exact h
  · exact List.mem_append_left _ h

theorem boundaryStep_fst_mono {x : MIDIEvent} {acc : List MIDIEvent × List NoteKey}
    (s : Int) (mt : Nat) (p : NoteKey × NoteLifecycle) (h : x ∈ acc.1) :
    x ∈ (boundaryStep s mt acc p).1 := by
  unfold boundaryStep
  dsimp only
  split
  · split
    · exact List.mem_append_left _ h
    · exact h
  · split
    · exact List.mem_append_left _ h
    · exact h

theorem boundaryStep_snd_mono {k : NoteKey} {acc : List MIDIEvent × List NoteKey}
    (s : Int) (mt : Nat) (p : NoteKey × NoteLifecycle) (h : k ∈ acc.2) :
    k ∈ (boundaryStep s mt acc p).2 := by
  unfold boundaryStep
  dsimp only
  split
  · refine mem_addKeyOnce_of_mem _ ?_
    split
    · split
      · exact mem_addKeyOnce_of_mem _ h
      · exact h
    · exact h
  · split
    · split
      · exact mem_addKeyOnce_of_mem _ h
      · exact h
    · exact h

theorem foldl_boundaryStep_fst_mono {x : MIDIEvent} (s : Int) (mt : Nat) :
    ∀ (ps : List (NoteKey × NoteLifecycle)) (acc : List MIDIEvent × List NoteKey),
      x ∈ acc.1 → x ∈ (ps.foldl (boundaryStep s mt) acc).1
  | [], _, h => h
  | p :: ps, acc, h =>
    foldl_boundaryStep_fst_mono s mt ps _ (boundaryStep_fst_mono s mt p h)

theorem foldl_boundaryStep_snd_mono {k : NoteKey} (s : Int) (mt : Nat) :
    ∀ (ps : List (NoteKey × NoteLifecycle)) (acc : List MIDIEvent × List NoteKey),
      k ∈ acc.2 → k ∈ (ps.foldl (boundaryStep s mt) acc).2
  | [], _, h => h
  | p :: ps, acc, h =>
    foldl_boundaryStep_snd_mono s mt ps _ (boundaryStep_snd_mono s mt p h)

theorem key_mem_boundaryStep {key : NoteKey} {lc : NoteLifecycle} {off : MIDIEvent}
    {s : Int} {mt : Nat} (acc : List MIDIEvent × List NoteKey)
    (hoff : lc.noteOff = some off)
    (hon : lc.noteOn.absoluteTime < s + mt)
    (hoffw : s + mt ≤ off.absoluteTime)
    (hmt : 0 < mt) :
    key ∈ (boundaryStep s mt acc (key, lc)).2 := by
  have h3 : endsAtOrAfter (s + mt) lc = true := by
    simp [endsAtOrAfter, hoff]
    omega
  by_cases hb : lc.noteOn.absoluteTime < s
  · have h1 : decide (lc.noteOn.absoluteTime < s) = true := by simpa using hb
    have h2 : endsAfter s lc = true := by
      simp [endsAfter, hoff]
      omega
    have h4 : decide (s ≤ lc.noteOn.absoluteTime) = false := by
      simp
      omega
    unfold boundaryStep
    simp only [h1, h2, h3, h4, Bool.true_and, Bool.and_true, Bool.false_and, if_true, if_false]
    exact mem_addKeyOnce_self _ _
  · have h1 : decide (lc.noteOn.absoluteTime < s) = false := by
      simp
      omega
    have h4 : decide (s ≤ lc.noteOn.absoluteTime) = true := by
      simp
      omega
    have h5 : decide (lc.noteOn.absoluteTime < s + mt) = true := by simpa using hon
    unfold boundaryStep
    simp only [h1, h3, h4, h5, Bool.false_and, Bool.true_and, Bool.and_true, if_false, if_true]
    exact mem_addKeyOnce_self _ _

theorem key_mem_foldl_boundaryStep {key : NoteKey} {lc : NoteLifecycle} {off : MIDIEvent}
    {s : Int} {mt : Nat}
    (ps : List (NoteKey × NoteLifecycle)) (acc : List MIDIEvent × List NoteKey)
    (hmem : (key, lc) ∈ ps)
    (hoff : lc.noteOff = some off)
    (hon : lc.noteOn.absoluteTime < s + mt)
    (hoffw : s + mt ≤ off.absoluteTime)
    (hmt : 0 < mt) :
    key ∈ (ps.foldl (boundaryStep s mt) acc).2 := by
  induction ps generalizing acc with
  | nil => cases hmem
  | cons p ps ih =>
    rcases List.mem_cons.mp hmem with heq | htail
    · subst heq
      exact foldl_boundaryStep_snd_mono s mt ps _
        (key_mem_boundaryStep acc hoff hon hoffw hmt)
    · exact ih _ htail

theorem synthOn_mem_boundaryStep {key : NoteKey} {lc : NoteLifecycle}
    {s : Int} {mt : Nat} (acc : List MIDIEvent × List NoteKey)
    (hb : lc.noteOn.absoluteTime < s)
    (hafter : endsAfter s lc = true) :
    synthNoteOn lc ∈ (boundaryStep s mt acc (key, lc)).1 := by
  have h1 : decide (lc.noteOn.absoluteTime < s) = true := by simpa using hb
  have h4 : decide (s ≤ lc.noteOn.absoluteTime) = false := by
    simp
    omega
  unfold boundaryStep
  simp only [h1, hafter, h4, Bool.true_and, Bool.and_true, Bool.false_and, if_true, if_false]
  exact List.mem_append_right _ (List.mem_singleton_self _)

theorem synthOn_mem_foldl_boundaryStep {key : NoteKey} {lc : NoteLifecycle}
    {s : Int} {mt : Nat}
    (ps : List (NoteKey × NoteLifecycle)) (acc : List MIDIEvent × List NoteKey)
    (hmem : (key, lc) ∈ ps)
    (hb : lc.noteOn.absoluteTime < s)
    (hafter : endsAfter s lc = true) :
    synthNoteOn lc ∈ (ps.foldl (boundaryStep s mt) acc).1 := by
  induction ps generalizing acc with
  | nil => cases hmem
  | cons p ps ih =>
    rcases List.mem_cons.mp hmem with heq | htail
    · subst heq
      exact foldl_boundaryStep_fst_mono s mt ps _ (synthOn_mem_boundaryStep acc hb hafter)
    · exact ih _ htail

theorem boundaryStep_fst_absTime {s : Int} {mt : Nat}
    (acc : List MIDIEvent × List NoteKey) (p : NoteKey × NoteLifecycle)
    (h0 : ∀ x ∈ acc.1, x.absoluteTime = 0) :
    ∀ x ∈ (boundaryStep s mt acc p).1, x.absoluteTime = 0 := by
  unfold boundaryStep
  dsimp only
  split
  · split
    · intro x hx
      rcases List.mem_append.mp hx with h | h
      · exact h0 x h
      · rw [List.mem_singleton.mp h]; rfl
    · exact h0
  · split
    · intro x hx
      rcases List.mem_append.mp hx with h | h
      · exact h0 x h
      · rw [List.mem_singleton.mp h]; rfl
    · exact h0

theorem foldl_boundaryStep_fst_absTime {s : Int} {mt : Nat}
    (ps : List (NoteKey × NoteLifecycle)) (acc : List MIDIEvent × List NoteKey)
    (h0 : ∀ x ∈ acc.1, x.absoluteTime = 0) :
    ∀ x ∈ (ps.foldl (boundaryStep s mt) acc).1, x.absoluteTime = 0 := by
  induction ps generalizing acc with
  | nil => exact h0
  | cons p ps ih => exact ih _ (boundaryStep_fst_absTime acc p h0)

theorem mem_lifecyclePairs {key : NoteKey} {es : List NoteLifecycle} {lc : NoteLifecycle}
    {m : LifecycleMap} (hes : (key, es) ∈ m) (hlc : lc ∈ es) :
    (key, lc) ∈ lifecyclePairs m := by
  unfold lifecyclePairs
  exact List.mem_flatMap.mpr ⟨(key, es), hes, List.mem_map_of_mem _ hlc⟩

end MidiClip

namespace MidiClip

/-! ### Chunk-loop indexing lemmas -/

theorem splitLoop_get? (ev : List MIDIEvent) (m : LifecycleMap) (mt : Nat) (T : Int)
    (hmt : 0 < mt) :
    ∀ (fuel k : Nat) (s : Int), (T - s).toNat ≤ fuel →
      (splitLoop ev m mt T fuel s).get? k =
        if s + ((k * mt : Nat) : Int) < T then
          some (buildChunk ev m (s + ((k * mt : Nat) : Int)) mt)
        else none := by
  intro fuel
  induction fuel with
  | zero =>
    intro k s hf
    have hnot : ¬ (s + ((k * mt : Nat) : Int) < T) := by
      have hge : (0 : Int) ≤ ((k * mt : Nat) : Int) := Int.ofNat_nonneg _
      omega
    rw [if_neg hnot]
    rfl
  | succ f ih =>
    intro k s hf
    by_cases hs : s < T
    · cases k with
      | zero =>
        simp only [splitLoop]
        rw [if_pos hs]
        simp [hs]
      | succ j =>
        simp only [splitLoop]
        rw [if_pos hs]
        simp only [List.get?_cons_succ]
        rw [ih j (s + mt) (by omega)]
        have harith : s + (mt : Int) + ((j * mt : Nat) : Int)
            = s + (((j + 1) * mt : Nat) : Int) := by
          push_cast
          ring
        rw [harith]
    · simp only [splitLoop]
      rw [if_neg hs]
      have hnot : ¬ (s + ((k * mt : Nat) : Int) < T) := by
        have hge : (0 : Int) ≤ ((k * mt : Nat) : Int) := Int.ofNat_nonneg _
        omega
      rw [if_neg hnot]
      rfl

theorem splitLoop_length_iff (ev : List MIDIEvent) (m : LifecycleMap) (mt : Nat) (T : Int)
    (hmt : 0 < mt) (fuel k : Nat) (s : Int) (hf : (T - s).toNat ≤ fuel) :
    k < (splitLoop ev m mt T fuel s).length ↔ s + ((k * mt : Nat) : Int) < T := by
  have h := splitLoop_get? ev m mt T hmt fuel k s hf
  constructor
  · intro hk
    by_contra hc
    rw [if_neg hc] at h
    have := List.get?_eq_none.mp h
    omega
  · intro hc
    rw [if_pos hc] at h
    by_contra hk
    rw [List.get?_eq_none.mpr (by omega)] at h
    cases h

theorem mem_splitLoop_iff {c : List MIDIEvent} (ev : List MIDIEvent) (m : LifecycleMap)
    (mt : Nat) (T : Int) (hmt : 0 < mt) (fuel : Nat) (s : Int)
    (hf : (T - s).toNat ≤ fuel) (h : c ∈ splitLoop ev m mt T fuel s) :
    ∃ k : Nat, s + ((k * mt : Nat) : Int) < T
      ∧ c = buildChunk ev m (s + ((k * mt : Nat) : Int)) mt := by
  obtain ⟨k, hk⟩ := List.mem_iff_get?.mp h
  rw [splitLoop_get? ev m mt T hmt fuel k s hf] at hk
  by_cases hc : s + ((k * mt : Nat) : Int) < T
  · rw [if_pos hc] at hk
    exact ⟨k, hc, (Option.some.injEq _ _ ▸ hk).symm⟩
  · rw [if_neg hc] at hk
    cases hk

theorem splitLoop_getD {ev : List MIDIEvent} {m : LifecycleMap} {mt : Nat} {T : Int}
    (hmt : 0 < mt) {fuel k : Nat} {s : Int} (hf : (T - s).toNat ≤ fuel)
    (hk : s + ((k * mt : Nat) : Int) < T) :
    (splitLoop ev m mt T fuel s).getD k [] = buildChunk ev m (s + ((k * mt : Nat) : Int)) mt := by
  have h := splitLoop_get? ev m mt T hmt fuel k s hf
  rw [if_pos hk] at h
  rw [List.getD, h]
  rfl

/-! ### Dispatch lemmas for splitEventsBySteps -/

theorem splitEventsBySteps_single {events : List MIDIEvent} {ms p s : Nat} {lastEv : MIDIEvent}
    (hlast : events.getLast? = some lastEv)
    (hle : lastEv.absoluteTime ≤ ((maxTicksPerClip ms p s : Nat) : Int)) :
    splitEventsBySteps events ms p s = [events] := by
  unfold splitEventsBySteps
  rw [hlast]
  simp [hle]

theorem splitEventsBySteps_loop {events : List MIDIEvent} {ms p s : Nat} {lastEv : MIDIEvent}
    (hlast : events.getLast? = some lastEv)
    (hgt : ((maxTicksPerClip ms p s : Nat) : Int) < lastEv.absoluteTime) :
    splitEventsBySteps events ms p s =
      splitLoop events (noteLifecycles events) (maxTicksPerClip ms p s) lastEv.absoluteTime
        (lastEv.absoluteTime.toNat + 1) 0 := by
  unfold splitEventsBySteps
  rw [hlast]
  simp [not_le.mpr hgt]

end MidiClip

namespace MidiClip

/-! ### Window content lemmas -/

theorem closeNoteOff_mem_buildChunk {key : NoteKey} (ev : List MIDIEvent) {m : LifecycleMap}
    {s : Int} {mt : Nat} (h : key ∈ (boundaryEvents m s mt).2) :
    ∃ e, e ∈ buildChunk ev m s mt ∧ eraseDelta e = eraseDelta (closeNoteOff key mt) := by
  apply mem_buildChunk_of_mem_parts
  exact List.mem_append_right _ (List.mem_map_of_mem _ h)

theorem synthOn_mem_buildChunk {x : MIDIEvent} (ev : List MIDIEvent) {m : LifecycleMap}
    {s : Int} {mt : Nat} (h : x ∈ (boundaryEvents m s mt).1) :
    ∃ e, e ∈ buildChunk ev m s mt ∧ eraseDelta e = eraseDelta x := by
  apply mem_buildChunk_of_mem_parts
  exact List.mem_append_left _ (List.mem_append_right _ h)

theorem buildChunk_absTime_bounds {e : MIDIEvent} {ev : List MIDIEvent} {m : LifecycleMap}
    {s : Int} {mt : Nat} (hmt : 0 < mt) (he : e ∈ buildChunk ev m s mt) :
    0 ≤ e.absoluteTime ∧ e.absoluteTime ≤ (mt : Int) - 1 := by
  obtain ⟨x, hx, heq⟩ := exists_part_of_mem_buildChunk he
  have habs : e.absoluteTime = x.absoluteTime := by
    have h1 : (eraseDelta e).absoluteTime = (eraseDelta x).absoluteTime := by rw [heq]
    simpa [absTime_eraseDelta] using h1
  rw [habs]
  rcases List.mem_append.mp hx with hx' | hcl
  · rcases List.mem_append.mp hx' with hcp | hons
    · unfold copiedEvents at hcp
      obtain ⟨e0, he0, hrb⟩ := List.mem_map.mp hcp
      have hw : inWindow s mt e0 = true := List.of_mem_filter he0
      unfold inWindow at hw
      simp only [Bool.and_eq_true, decide_eq_true_eq] at hw
      rw [← hrb]
      unfold rebase
      dsimp only
      omega
    · have h0 := foldl_boundaryStep_fst_absTime (lifecyclePairs m) ([], [])
        (fun x hx => absurd hx (List.not_mem_nil x)) x hons
      rw [h0]
      omega
  · obtain ⟨k, _, hck⟩ := List.mem_map.mp hcl
    rw [← hck]
    unfold closeNoteOff
    dsimp only
    omega

/-! ### Sorted find?/min? characterisation for the writer lookup -/

theorem foldl_min_eq_self {a : Int} (l : List Int) (h : ∀ x ∈ l, a ≤ x) :
    l.foldl min a = a := by
  induction l with
  | nil => rfl
  | cons x xs ih =>
    have hax : a ≤ x := h x (List.mem_cons_self x xs)
    simp only [List.foldl_cons, min_eq_left hax]
    exact ih fun y hy => h y (List.mem_cons_of_mem x hy)

theorem find?_eq_min?_filter {l : List Int} (hs : l.Pairwise (fun a b : Int => a ≤ b)) (t : Int) :
    l.find? (fun x => decide (t < x)) = (l.filter (fun x => decide (t < x))).min? := by
  induction l with
  | nil => rfl
  | cons a l ih =>
    have hpair := List.pairwise_cons.mp hs
    by_cases h : t < a
    · rw [List.find?_cons_of_pos _ (by simpa using h)]
      rw [List.filter_cons_of_pos (by simpa using h)]
      rw [List.min?_cons']
      congr 1
      apply (foldl_min_eq_self _ ?_).symm
      intro x hx
      exact hpair.1 x (List.mem_of_mem_filter hx)
    · rw [List.find?_cons_of_neg _ (by simpa using h)]
      rw [List.filter_cons_of_neg (by simpa using h)]
      exact ih hpair.2

theorem insertIntAsc_perm (x : Int) (l : List Int) : (insertIntAsc x l).Perm (x :: l) := by
  induction l with
  | nil => exact List.Perm.refl _
  | cons y ys ih =>
    unfold insertIntAsc
    split
    · exact (List.Perm.cons y ih).trans (List.Perm.swap x y ys)
    · exact List.Perm.refl _

theorem mem_insertIntAsc {z x : Int} {l : List Int} (h : z ∈ insertIntAsc x l) :
    z = x ∨ z ∈ l :=
  List.mem_cons.mp ((insertIntAsc_perm x l).mem_iff.mp h)

theorem insertIntAsc_pairwise (x : Int) {l : List Int}
    (h : l.Pairwise (fun a b : Int => a ≤ b)) :
    (insertIntAsc x l).Pairwise (fun a b : Int => a ≤ b) := by
  induction l with
  | nil => exact List.pairwise_singleton _ _
  | cons y ys ih =>
    have hy : ∀ z ∈ ys, y ≤ z := (List.pairwise_cons.mp h).1
    have hys : ys.Pairwise (fun a b : Int => a ≤ b) := (List.pairwise_cons.mp h).2
    unfold insertIntAsc
    split
    · refine List.pairwise_cons.mpr ⟨?_, ih hys⟩
      intro z hz
      rcases mem_insertIntAsc hz with rfl | hz'
      · omega
      · exact hy z hz'
    · refine List.pairwise_cons.mpr ⟨?_, h⟩
      intro z hz
      rcases List.mem_cons.mp hz with rfl | hz'
      · omega
      · have := hy z hz'
        omega

theorem sortIntAsc_pairwise (l : List Int) :
    (sortIntAsc l).Pairwise (fun a b : Int => a ≤ b) := by
  induction l with
  | nil => exact List.Pairwise.nil
  | cons x xs ih => exact insertIntAsc_pairwise x ih

theorem noteOffTimes_sorted (events : List MIDIEvent) (c n : Nat) :
    (noteOffTimes events c n).Pairwise (fun a b : Int => a ≤ b) :=
  sortIntAsc_pairwise _

end MidiClip

namespace MidiClip

/-! ### Claim C10 -/

/-- C10: for the empty event stream, `splitEventsBySteps` returns exactly one
clip, the empty stream (`[[]]`, never `[]`), regardless of `maxSteps`, `ppq`
and `stepsPerBar`. -/
theorem c10_empty_stream (ms p s : Nat) : splitEventsBySteps [] ms p s = [[]] := rfl

/-! ### Claim C5 -/

/-- C5: whenever the stream's total ticks (the last event's `absoluteTime`)
are at most `maxTicksPerClip` — including equality — `splitEventsBySteps`
returns exactly one clip that is the input stream itself, unmodified. -/
theorem c5_degenerate_single_clip (events : List MIDIEvent) (ms p s : Nat) (lastEv : MIDIEvent)
    (hlast : events.getLast? = some lastEv)
    (hle : lastEv.absoluteTime ≤ ((maxTicksPerClip ms p s : Nat) : Int)) :
    splitEventsBySteps events ms p s = [events] :=
  splitEventsBySteps_single hlast hle

/-- Witness for C5 at the equality case: a stream ending exactly at tick
15360 with window width 15360 is returned as a single unchanged clip. -/
theorem c5_degenerate_single_clip_witness :
    [exOn100, exOffEq].getLast? = some exOffEq ∧
    exOffEq.absoluteTime ≤ ((maxTicksPerClip 128 480 16 : Nat) : Int) ∧
    splitEventsBySteps [exOn100, exOffEq] 128 480 16 = [[exOn100, exOffEq]] :=
  ⟨by decide, by decide,
    c5_degenerate_single_clip [exOn100, exOffEq] 128 480 16 exOffEq (by decide) (by decide)⟩

/-! ### Claim C2 -/

/-- C2 counterexample: on the stream NoteOn(0), NoteOn(10), NoteOff(20),
NoteOff(30) for (channel 0, note 60), the lifecycle construction pairs the
NoteOff at tick 20 with the *second* NoteOn (tick 10) and leaves the first
NoteOn unmatched, while FIFO matching (the claim) pairs first-with-first:
(0 ↔ 20) and (10 ↔ 30). The claimed FIFO pairing is therefore not what
`noteLifecycles` computes. -/
theorem c2_counterexample :
    noteLifecycles exOverlap =
      [((some 0, some 60),
        [{ noteOn := ovOn0 }, { noteOn := ovOn10, noteOff := some ovOff20 }])] ∧
    (fifoPairs exOverlap).map (fun pr => (pr.1.absoluteTime, pr.2.absoluteTime))
      = [(0, 20), (10, 30)] ∧
    noteLifecycles exOverlap ≠
      [((some 0, some 60),
        [{ noteOn := ovOn0, noteOff := some ovOff20 },
         { noteOn := ovOn10, noteOff := some ovOff30 }])] := by
  refine ⟨by decide, by decide, by decide⟩

/-- C2 (amended): for two overlapping NoteOns on one pitch followed by two
NoteOffs (t1 < t2 < t3 < t4), the lifecycle construction of
`splitEventsBySteps` matches each NoteOff against the *most recently opened*
lifecycle only: the first NoteOff closes the second NoteOn, the second
NoteOff is discarded, and the first NoteOn remains unmatched. -/
theorem c2_lifecycle_matches_last_open
    (ch nt v1 v2 : Option Nat) (t1 t2 t3 t4 d1 d2 d3 d4 : Int)
    (_h12 : t1 < t2) (_h23 : t2 < t3) (_h34 : t3 < t4) :
    noteLifecycles
      [{ type := EType.noteOn, deltaTime := d1, absoluteTime := t1,
         channel := ch, note := nt, velocity := v1 },
       { type := EType.noteOn, deltaTime := d2, absoluteTime := t2,
         channel := ch, note := nt, velocity := v2 },
       { type := EType.noteOff, deltaTime := d3, absoluteTime := t3,
         channel := ch, note := nt, velocity := some 0 },
       { type := EType.noteOff, deltaTime := d4, absoluteTime := t4,
         channel := ch, note := nt, velocity := some 0 }]
      = [((ch, nt),
          [{ noteOn := { type := EType.noteOn, deltaTime := d1, absoluteTime := t1,
                         channel := ch, note := nt, velocity := v1 } },
           { noteOn := { type := EType.noteOn, deltaTime := d2, absoluteTime := t2,
                         channel := ch, note := nt, velocity := v2 },
             noteOff := some { type := EType.noteOff, deltaTime := d3, absoluteTime := t3,
                               channel := ch, note := nt, velocity := some 0 } }])] := by
  simp [noteLifecycles, addNoteOn, addNoteOff, setLastNoteOff, noteKeyOf]

/-- Witness for the amended C2 at t1 = 0, t2 = 10, t3 = 20, t4 = 30 on
(channel 0, note 60). -/
theorem c2_lifecycle_matches_last_open_witness :
    noteLifecycles
      [{ type := EType.noteOn, deltaTime := 0, absoluteTime := 0,
         channel := some 0, note := some 60, velocity := some 100 },
       { type := EType.noteOn, deltaTime := 10, absoluteTime := 10,
         channel := some 0, note := some 60, velocity := some 90 },
       { type := EType.noteOff, deltaTime := 10, absoluteTime := 20,
         channel := some 0, note := some 60, velocity := some 0 },
       { type := EType.noteOff, deltaTime := 10, absoluteTime := 30,
         channel := some 0, note := some 60, velocity := some 0 }]
      = [((some 0, some 60),
          [{ noteOn := { type := EType.noteOn, deltaTime := 0, absoluteTime := 0,
                         channel := some 0, note := some 60, velocity := some 100 } },
           { noteOn := { type := EType.noteOn, deltaTime := 10, absoluteTime := 10,
                         channel := some 0, note := some 60, velocity := some 90 },
             noteOff := some { type := EType.noteOff, deltaTime := 10, absoluteTime := 20,
                               channel := some 0, note := some 60, velocity := some 0 } }])] :=
  c2_lifecycle_matches_last_open (some 0) (some 60) (some 100) (some 90)
    0 10 20 30 0 10 10 10 (by decide) (by decide) (by decide)

/-! ### Claim C7 -/

/-- C7 counterexample: on the overlapping stream, `writeMIDIFile`'s lookup
assigns the NoteOff at tick 20 to *both* NoteOns (non-consuming), whereas
FIFO matching pairs (0 ↔ 20) and (10 ↔ 30); the duration the writer assigns
to the NoteOn at tick 10 therefore differs from the FIFO duration. -/
theorem c7_counterexample :
    writerNoteOffChoice exOverlap 0 60 0 = some 20 ∧
    writerNoteOffChoice exOverlap 0 60 10 = some 20 ∧
    (fifoPairs exOverlap).map (fun pr => (pr.1.absoluteTime, pr.2.absoluteTime))
      = [(0, 20), (10, 30)] ∧
    writerNoteOffChoice exOverlap 0 60 10 ≠ some 30 := by
  refine ⟨by decide, by decide, by decide, by decide⟩

/-- C7 (amended): for every stream, the NoteOff time `writeMIDIFile` uses for
a NoteOn at time `t` on (channel c, note n) is the minimum of that key's
NoteOff times strictly greater than `t` (and `none` when there is none); the
lookup never consumes a NoteOff, so overlapping same-pitch NoteOns may share
one NoteOff, unlike the FIFO policy. -/
theorem c7_writer_uses_min_later_noteOff (events : List MIDIEvent) (c n : Nat) (t : Int) :
    writerNoteOffChoice events c n t
      = ((noteOffTimes events c n).filter fun x => decide (t < x)).min? := by
  unfold writerNoteOffChoice findNextNoteOff
  exact find?_eq_min?_filter (noteOffTimes_sorted events c n) t

end MidiClip

namespace MidiClip

/-! ### Claim C6 -/

/-- C6 counterexample: with a non-empty allow-list, `mergeTracks` also drops
events whose `channel` is undefined (the source drops on
`event.channel === undefined`), contradicting the claim that channel-less
events are retained: merging a track holding a channel-less meta event and a
channel-0 note with `channelFilter = [0]` keeps only the note. -/
theorem c6_counterexample :
    exMeta ∈ exTrack0.events ∧ exMeta.channel = none ∧
    mergeTracks [exTrack0, exTrack1] exCfg =
      [{ type := EType.noteOn, deltaTime := 0, absoluteTime := 0,
         channel := some 0, note := some 60, velocity := some 100 }] ∧
    (∀ e ∈ mergeTracks [exTrack0, exTrack1] exCfg, e.type ≠ EType.meta) := by
  refine ⟨by decide, by decide, by decide, by decide⟩

/-- C6 (amended): with a non-empty channel allow-list, `mergeTracks` keeps
exactly the events of the listed tracks whose channel is defined and in the
list (and which survive the program-change and sysex/unknown filters);
events with no channel field are dropped, not retained. Both directions are
stated: every output event carries an allowed channel, and every kept input
event reappears in the output up to the recomputed `deltaTime`. -/
theorem c6_channel_filter (tracks : List MIDITrack) (config : OutputTrackConfig)
    (f : List Nat) (hcf : config.channelFilter = some f) (hne : f ≠ []) :
    (∀ e ∈ mergeTracks tracks config, ∃ c, e.channel = some c ∧ c ∈ f) ∧
    (∀ i ∈ config.sourceTracks, ∀ tr, tracks.get? i = some tr → ∀ e ∈ tr.events,
      (∃ c, e.channel = some c ∧ c ∈ f) →
      ¬(config.stripProgramChange = true ∧ e.type = EType.programChange) →
      e.type ≠ EType.sysex → e.type ≠ EType.unknown →
      ∃ e', e' ∈ mergeTracks tracks config ∧ eraseDelta e' = eraseDelta e) := by
  have hfe : f.isEmpty = false := by
    cases f with
    | nil => exact absurd rfl hne
    | cons a l => rfl
  constructor
  · intro e he
    obtain ⟨e0, he0, heq⟩ := exists_mem_of_mem_recalcDeltas he
    have he0' : e0 ∈ collectedEvents tracks config := mem_sortByTime.mp he0
    obtain ⟨i, _, hei⟩ := List.mem_flatMap.mp he0'
    have hch : e.channel = e0.channel := by
      have h2 := congrArg MIDIEvent.channel heq
      exact h2
    match htr : tracks.get? i with
    | none => rw [htr] at hei; cases hei
    | some tr =>
      rw [htr] at hei
      have hkeep : keepEvent config e0 = true := (List.mem_filter.mp hei).2
      unfold keepEvent at hkeep
      simp only [Bool.and_eq_true] at hkeep
      have hpass := hkeep.1.1
      rw [hcf] at hpass
      simp only [passesChannelFilter, hfe, Bool.false_eq_true, if_false] at hpass
      cases hc : e0.channel with
      | none =>
        rw [hc] at hpass
        simp at hpass
      | some c =>
        rw [hc] at hpass
        exact ⟨c, by rw [hch, hc], List.elem_iff.mp hpass⟩
  · intro i hi tr htr e he hch hpc hsy hun
    obtain ⟨c, hc, hcin⟩ := hch
    have hpass : passesChannelFilter config.channelFilter e = true := by
      rw [hcf]
      simp only [passesChannelFilter, hfe, Bool.false_eq_true, if_false, hc]
      exact List.elem_eq_true_of_mem hcin
    have h2 : (!(config.stripProgramChange && decide (e.type = EType.programChange))) = true := by
      by_cases hs : config.stripProgramChange = true
      · have hd : decide (e.type = EType.programChange) = false := by
          apply decide_eq_false
          intro hpc'
          exact hpc ⟨hs, hpc'⟩
        simp [hd]
      · have hs' : config.stripProgramChange = false := by simpa using hs
        simp [hs']
    have h3 : (!(decide (e.type = EType.sysex) || decide (e.type = EType.unknown))) = true := by
      simp [hsy, hun]
    have hkeep : keepEvent config e = true := by
      unfold keepEvent
      rw [hpass, h2, h3]
      rfl
    have hcol : e ∈ collectedEvents tracks config := by
      apply List.mem_flatMap.mpr
      refine ⟨i, hi, ?_⟩
      rw [htr]
      exact List.mem_filter.mpr ⟨he, hkeep⟩
    exact mem_recalcDeltas_of_mem 0 (mem_sortByTime.mpr hcol)

/-- Witness for the amended C6: merging the channel-0/channel-1 example
tracks with allow-list [0] — every output event is on channel 0, and the
channel-0 note survives (up to delta recomputation). -/
theorem c6_channel_filter_witness :
    (∃ c, ((mergeTracks [exTrack0, exTrack1] exCfg).getD 0 exCh0).channel = some c ∧ c ∈ [0]) ∧
    (∃ e', e' ∈ mergeTracks [exTrack0, exTrack1] exCfg ∧ eraseDelta e' = eraseDelta exCh0) :=
  ⟨(c6_channel_filter [exTrack0, exTrack1] exCfg [0] (by decide) (by decide)).1
      ((mergeTracks [exTrack0, exTrack1] exCfg).getD 0 exCh0) (by decide),
    (c6_channel_filter [exTrack0, exTrack1] exCfg [0] (by decide) (by decide)).2
      0 (by decide) exTrack0 (by decide) exCh0 (by decide) ⟨0, by decide, by decide⟩
      (by decide) (by decide) (by decide)⟩

end MidiClip

namespace MidiClip

/-! ### Further loop helpers -/

theorem exists_buildChunk_of_mem_splitLoop {c : List MIDIEvent} {ev : List MIDIEvent}
    {m : LifecycleMap} {mt : Nat} {T : Int} :
    ∀ {fuel : Nat} {s : Int}, c ∈ splitLoop ev m mt T fuel s →
      ∃ s', c = buildChunk ev m s' mt := by
  intro fuel
  induction fuel with
  | zero =>
    intro s h
    cases h
  | succ f ih =>
    intro s h
    simp only [splitLoop] at h
    split at h
    · rcases List.mem_cons.mp h with rfl | h'
      · exact ⟨s, rfl⟩
      · exact ih h'
    · cases h

/-! ### Claim C1 -/

/-- C1: whenever a (channel, note) lifecycle's NoteOn lies before the end of
window `k` while its matched NoteOff lies at or after that window's end, and
the stream is actually split (totalTicks exceeds the window width), clip `k`
contains a synthesized NoteOff at re-based tick `maxTicks - 1` with
velocity 0 for that channel and note. -/
theorem c1_boundary_noteOff (events : List MIDIEvent) (ms p s : Nat) (lastEv : MIDIEvent)
    (key : NoteKey) (es : List NoteLifecycle) (lc : NoteLifecycle) (off : MIDIEvent) (k : Nat)
    (hlast : events.getLast? = some lastEv)
    (hmt : 0 < maxTicksPerClip ms p s)
    (hsplit : ((maxTicksPerClip ms p s : Nat) : Int) < lastEv.absoluteTime)
    (hwin : ((k * maxTicksPerClip ms p s : Nat) : Int) < lastEv.absoluteTime)
    (hes : (key, es) ∈ noteLifecycles events)
    (hlc : lc ∈ es)
    (hoff : lc.noteOff = some off)
    (hon : lc.noteOn.absoluteTime < (((k + 1) * maxTicksPerClip ms p s : Nat) : Int))
    (hoffw : (((k + 1) * maxTicksPerClip ms p s : Nat) : Int) ≤ off.absoluteTime) :
    ∃ e, e ∈ (splitEventsBySteps events ms p s).getD k [] ∧
      e.type = EType.noteOff ∧
      e.absoluteTime = ((maxTicksPerClip ms p s : Nat) : Int) - 1 ∧
      e.channel = key.1 ∧ e.note = key.2 ∧ e.velocity = some 0 := by
  have hmul : (k + 1) * maxTicksPerClip ms p s
      = k * maxTicksPerClip ms p s + maxTicksPerClip ms p s := Nat.succ_mul _ _
  rw [hmul, Nat.cast_add] at hon hoffw
  rw [splitEventsBySteps_loop hlast hsplit]
  rw [splitLoop_getD hmt (by omega) (by omega : (0 : Int) +
    ((k * maxTicksPerClip ms p s : Nat) : Int) < lastEv.absoluteTime)]
  rw [zero_add]
  have hkey : key ∈ (boundaryEvents (noteLifecycles events)
      ((k * maxTicksPerClip ms p s : Nat) : Int) (maxTicksPerClip ms p s)).2 := by
    apply key_mem_foldl_boundaryStep (lifecyclePairs (noteLifecycles events)) ([], [])
      (mem_lifecyclePairs hes hlc) hoff
    · omega
    · omega
    · exact hmt
  obtain ⟨e, he, heq⟩ := closeNoteOff_mem_buildChunk events hkey
  refine ⟨e, he, ?_, ?_, ?_, ?_, ?_⟩
  · have h2 := congrArg MIDIEvent.type heq
    exact h2
  · have h2 := congrArg MIDIEvent.absoluteTime heq
    exact h2
  · have h2 := congrArg MIDIEvent.channel heq
    exact h2
  · have h2 := congrArg MIDIEvent.note heq
    exact h2
  · have h2 := congrArg MIDIEvent.velocity heq
    exact h2

/-- Witness for C1 at the spec's boundary-continuity example: NoteOn at tick
100, NoteOff at tick 20100, window width 15360 (128 steps, ppq 480, 16 steps
per bar). The first clip contains the synthesized NoteOff at tick 15359, the
second clip the synthesized NoteOn at tick 0 with the original velocity 100
and the real NoteOff at re-based tick 4740. -/
theorem c1_boundary_noteOff_witness :
    (∃ e, e ∈ (splitEventsBySteps exLong 128 480 16).getD 0 [] ∧
      e.type = EType.noteOff ∧
      e.absoluteTime = ((maxTicksPerClip 128 480 16 : Nat) : Int) - 1 ∧
      e.channel = some 0 ∧ e.note = some 60 ∧ e.velocity = some 0) ∧
    ((maxTicksPerClip 128 480 16 : Nat) : Int) - 1 = 15359 ∧
    (∃ e, e ∈ (splitEventsBySteps exLong 128 480 16).getD 1 [] ∧
      e.type = EType.noteOn ∧ e.absoluteTime = 0 ∧ e.velocity = some 100) ∧
    (∃ e, e ∈ (splitEventsBySteps exLong 128 480 16).getD 1 [] ∧
      e.type = EType.noteOff ∧ e.absoluteTime = 4740) :=
  ⟨c1_boundary_noteOff exLong 128 480 16 exOff20100 (some 0, some 60)
      [{ noteOn := exOn100, noteOff := some exOff20100 }]
      { noteOn := exOn100, noteOff := some exOff20100 } exOff20100 0
      (by decide) (by decide) (by decide) (by decide) (by decide) (by decide) (by decide)
      (by decide) (by decide),
    by decide, by decide, by decide⟩

/-! ### Claim C4 -/

/-- C4 counterexample: with window width 4 (4 steps, ppq 4, 16 steps per
bar), the note 60 lifecycle NoteOn(0) -- NoteOff(4) has its NoteOff exactly
on the second window's start tick 4. The claim requires a synthesized NoteOn
at re-based tick 0 in that window; the source's strict comparison
(`noteOff.absoluteTime > currentChunkStart`) synthesizes nothing, and the
second clip holds only the orphan NoteOff and the note-61 pair. -/
theorem c4_counterexample :
    ((some 0, some 60), [{ noteOn := smOn0, noteOff := some bdOff4 }])
        ∈ noteLifecycles exBoundary ∧
    smOn0.absoluteTime < ((1 * maxTicksPerClip 4 4 16 : Nat) : Int) ∧
    bdOff4.absoluteTime = ((1 * maxTicksPerClip 4 4 16 : Nat) : Int) ∧
    (splitEventsBySteps exBoundary 4 4 16).getD 1 [] =
      [{ type := EType.noteOff, deltaTime := 0, absoluteTime := 0,
         channel := some 0, note := some 60, velocity := some 0 },
       { type := EType.noteOn, deltaTime := 1, absoluteTime := 1,
         channel := some 0, note := some 61, velocity := some 80 },
       { type := EType.noteOff, deltaTime := 1, absoluteTime := 2,
         channel := some 0, note := some 61, velocity := some 0 }] ∧
    ¬ (∃ e, e ∈ (splitEventsBySteps exBoundary 4 4 16).getD 1 [] ∧
        e.type = EType.noteOn ∧ e.note = some 60) := by
  refine ⟨by decide, by decide, by decide, by decide, by decide⟩

/-- C4 (amended): for a lifecycle whose NoteOn precedes the start of window
`k` and whose matching NoteOff is *strictly after* that start (or missing) —
not merely at or after it — clip `k` contains a synthesized NoteOn at
re-based tick 0 carrying the original NoteOn's channel, note and velocity. -/
theorem c4_synth_noteOn (events : List MIDIEvent) (ms p s : Nat) (lastEv : MIDIEvent)
    (key : NoteKey) (es : List NoteLifecycle) (lc : NoteLifecycle) (k : Nat)
    (hlast : events.getLast? = some lastEv)
    (hmt : 0 < maxTicksPerClip ms p s)
    (hsplit : ((maxTicksPerClip ms p s : Nat) : Int) < lastEv.absoluteTime)
    (hwin : ((k * maxTicksPerClip ms p s : Nat) : Int) < lastEv.absoluteTime)
    (hes : (key, es) ∈ noteLifecycles events)
    (hlc : lc ∈ es)
    (hb : lc.noteOn.absoluteTime < ((k * maxTicksPerClip ms p s : Nat) : Int))
    (hafter : endsAfter ((k * maxTicksPerClip ms p s : Nat) : Int) lc = true) :
    ∃ e, e ∈ (splitEventsBySteps events ms p s).getD k [] ∧
      e.type = EType.noteOn ∧ e.absoluteTime = 0 ∧
      e.channel = lc.noteOn.channel ∧ e.note = lc.noteOn.note ∧
      e.velocity = lc.noteOn.velocity := by
  rw [splitEventsBySteps_loop hlast hsplit]
  rw [splitLoop_getD hmt (by omega) (by omega : (0 : Int) +
    ((k * maxTicksPerClip ms p s : Nat) : Int) < lastEv.absoluteTime)]
  rw [zero_add]
  have hsynth : synthNoteOn lc ∈ (boundaryEvents (noteLifecycles events)
      ((k * maxTicksPerClip ms p s : Nat) : Int) (maxTicksPerClip ms p s)).1 :=
    synthOn_mem_foldl_boundaryStep (lifecyclePairs (noteLifecycles events))
      ([], []) (mem_lifecyclePairs hes hlc) hb hafter
  obtain ⟨e, he, heq⟩ := synthOn_mem_buildChunk events hsynth
  refine ⟨e, he, ?_, ?_, ?_, ?_, ?_⟩
  · have h2 := congrArg MIDIEvent.type heq
    exact h2
  · have h2 := congrArg MIDIEvent.absoluteTime heq
    exact h2
  · have h2 := congrArg MIDIEvent.channel heq
    exact h2
  · have h2 := congrArg MIDIEvent.note heq
    exact h2
  · have h2 := congrArg MIDIEvent.velocity heq
    exact h2

/-- Witness for the amended C4 at the long-note example: in window 1 the note
is sounding (NoteOff at 20100 is strictly after the start 15360), so the
second clip contains a synthesized NoteOn at tick 0 with velocity 100. -/
theorem c4_synth_noteOn_witness :
    ∃ e, e ∈ (splitEventsBySteps exLong 128 480 16).getD 1 [] ∧
      e.type = EType.noteOn ∧ e.absoluteTime = 0 ∧
      e.channel = some 0 ∧ e.note = some 60 ∧ e.velocity = some 100 :=
  c4_synth_noteOn exLong 128 480 16 exOff20100 (some 0, some 60)
    [{ noteOn := exOn100, noteOff := some exOff20100 }]
    { noteOn := exOn100, noteOff := some exOff20100 } 1
    (by decide) (by decide) (by decide) (by decide) (by decide) (by decide)
    (by decide) (by decide)

end MidiClip

namespace MidiClip

/-! ### Claim C9 -/

/-- C9: when splitting occurs (and the window width is positive), every
event of every returned clip has re-based `absoluteTime` in
`[0, maxTicks - 1]`; moreover every synthesized boundary NoteOff is placed
at exactly `maxTicks - 1` with velocity 0. -/
theorem c9_rebased_times_in_range (events : List MIDIEvent) (ms p s : Nat) (lastEv : MIDIEvent)
    (_hnn : ∀ e ∈ events, 0 ≤ e.absoluteTime)
    (hmt : 0 < maxTicksPerClip ms p s)
    (hlast : events.getLast? = some lastEv)
    (hsplit : ((maxTicksPerClip ms p s : Nat) : Int) < lastEv.absoluteTime) :
    (∀ c ∈ splitEventsBySteps events ms p s, ∀ e ∈ c,
        0 ≤ e.absoluteTime ∧ e.absoluteTime ≤ ((maxTicksPerClip ms p s : Nat) : Int) - 1) ∧
    (∀ key : NoteKey, (closeNoteOff key (maxTicksPerClip ms p s)).type = EType.noteOff ∧
        (closeNoteOff key (maxTicksPerClip ms p s)).absoluteTime
          = ((maxTicksPerClip ms p s : Nat) : Int) - 1 ∧
        (closeNoteOff key (maxTicksPerClip ms p s)).velocity = some 0) := by
  constructor
  · intro c hc e he
    rw [splitEventsBySteps_loop hlast hsplit] at hc
    obtain ⟨s', rfl⟩ := exists_buildChunk_of_mem_splitLoop hc
    exact buildChunk_absTime_bounds hmt he
  · intro key
    exact ⟨rfl, rfl, rfl⟩

/-- Witness for C9 at the long-note example, instantiated at the first event
of the first clip. -/
theorem c9_rebased_times_in_range_witness :
    0 ≤ (((splitEventsBySteps exLong 128 480 16).getD 0 []).getD 0 exOn100).absoluteTime ∧
    (((splitEventsBySteps exLong 128 480 16).getD 0 []).getD 0 exOn100).absoluteTime
      ≤ ((maxTicksPerClip 128 480 16 : Nat) : Int) - 1 :=
  (c9_rebased_times_in_range exLong 128 480 16 exOff20100
      (by decide) (by decide) (by decide) (by decide)).1
    ((splitEventsBySteps exLong 128 480 16).getD 0 []) (by decide)
    (((splitEventsBySteps exLong 128 480 16).getD 0 []).getD 0 exOn100) (by decide)

/-! ### Claim C8 -/

/-- C8: the stream returned by `mergeTracks` and every clip returned by
`splitEventsBySteps` on it are non-decreasing in `absoluteTime`, and the
recomputed `deltaTime`s prefix-sum back to each event's `absoluteTime`
(the first event's delta is its own absolute time). -/
theorem c8_monotone_time_and_deltas (tracks : List MIDITrack) (config : OutputTrackConfig)
    (ms p s : Nat) :
    timesSorted (mergeTracks tracks config) ∧ deltasConsistent (mergeTracks tracks config) ∧
    ∀ c ∈ splitEventsBySteps (mergeTracks tracks config) ms p s,
      timesSorted c ∧ deltasConsistent c := by
  refine ⟨timesSorted_mergeTracks tracks config, deltasConsistent_mergeTracks tracks config, ?_⟩
  intro c hc
  cases hlast : (mergeTracks tracks config).getLast? with
  | none =>
    unfold splitEventsBySteps at hc
    rw [hlast] at hc
    rcases List.mem_singleton.mp hc with rfl
    exact ⟨timesSorted_nil, deltasConsistent_nil⟩
  | some lastEv =>
    by_cases hle : lastEv.absoluteTime ≤ ((maxTicksPerClip ms p s : Nat) : Int)
    · rw [splitEventsBySteps_single hlast hle] at hc
      rcases List.mem_singleton.mp hc with rfl
      exact ⟨timesSorted_mergeTracks tracks config, deltasConsistent_mergeTracks tracks config⟩
    · rw [splitEventsBySteps_loop hlast (not_le.mp hle)] at hc
      obtain ⟨s', rfl⟩ := exists_buildChunk_of_mem_splitLoop hc
      exact ⟨timesSorted_buildChunk _ _ _ _, deltasConsistent_buildChunk _ _ _ _⟩

/-- Witness for C8 at the merge example (one clip, degenerate split). -/
theorem c8_monotone_time_and_deltas_witness :
    timesSorted (mergeTracks [exTrack0, exTrack1] exCfg) ∧
    timesSorted ((splitEventsBySteps (mergeTracks [exTrack0, exTrack1] exCfg) 2 4 8).getD 0 []) :=
  ⟨(c8_monotone_time_and_deltas [exTrack0, exTrack1] exCfg 2 4 8).1,
    ((c8_monotone_time_and_deltas [exTrack0, exTrack1] exCfg 2 4 8).2.2
      ((splitEventsBySteps (mergeTracks [exTrack0, exTrack1] exCfg) 2 4 8).getD 0 [])
      (by decide)).1⟩

end MidiClip

namespace MidiClip

/-! ### Claim C3 -/

/-- C3 counterexample: with ppq 4, 8 steps per bar (ticksPerStep 2), 2 steps
per clip (window width 4) and a stream ending at tick 5, two clips are
produced, the claimed totalSteps is `ceil(5 / 2) = 3`, but the computed step
ranges are `[0, 2)` and `[2, 2)` (the export code clamps against the *floor*
`ticksToSteps`), so step 2 of the claimed `[0, 3)` is covered by no range:
the ranges do not tile `[0, ceil(lastTick / ticksPerStep))`. -/
theorem c3_counterexample :
    (splitEventsBySteps exShort 2 4 8).length = 2 ∧
    calculateSteps 5 4 8 = 3 ∧
    stepRanges 2 2 (ticksToSteps 5 4 8) = [(0, 2), (2, 2)] ∧
    ((0 : Int) ≤ 2 ∧ (2 : Int) < calculateSteps 5 4 8) ∧
    (∀ r ∈ stepRanges 2 2 (ticksToSteps 5 4 8), ¬ (r.1 ≤ (2 : Int) ∧ (2 : Int) < r.2)) := by
  refine ⟨by decide, by decide, by decide, by decide, by decide⟩

/-- C3 (amended): for a non-empty stream with non-negative last tick,
positive `maxStepsPerClip` and positive `ticksPerStep`, the clip list is
non-empty and the step ranges assigned by the export code tile
`[0, ticksToSteps lastTick)` — totalSteps taken with *floor* division, not
the claimed ceiling — consecutively: the first range starts at 0, each range
ends where the next begins, the last range ends at `ticksToSteps lastTick`,
and every range is non-decreasing (the final range may be empty when the
last tick is not a multiple of `ticksPerStep`). -/
theorem c3_step_ranges_tile (events : List MIDIEvent) (ms p s : Nat) (lastEv : MIDIEvent)
    (hlast : events.getLast? = some lastEv)
    (hms : 0 < ms)
    (htps : 0 < ticksPerStep p s)
    (hL0 : 0 ≤ lastEv.absoluteTime) :
    0 < (splitEventsBySteps events ms p s).length ∧
    (stepRange 0 ms (ticksToSteps lastEv.absoluteTime p s)).1 = 0 ∧
    (∀ k : Nat, k + 1 < (splitEventsBySteps events ms p s).length →
      (stepRange k ms (ticksToSteps lastEv.absoluteTime p s)).2
        = (stepRange (k + 1) ms (ticksToSteps lastEv.absoluteTime p s)).1) ∧
    (stepRange ((splitEventsBySteps events ms p s).length - 1) ms
        (ticksToSteps lastEv.absoluteTime p s)).2
      = ticksToSteps lastEv.absoluteTime p s ∧
    (∀ k : Nat, k < (splitEventsBySteps events ms p s).length →
      (stepRange k ms (ticksToSteps lastEv.absoluteTime p s)).1
        ≤ (stepRange k ms (ticksToSteps lastEv.absoluteTime p s)).2) := by
  have hmt : 0 < maxTicksPerClip ms p s := Nat.mul_pos hms htps
  have hLn : lastEv.absoluteTime = ((lastEv.absoluteTime.toNat : Nat) : Int) :=
    (Int.toNat_of_nonneg hL0).symm
  have hS : ticksToSteps lastEv.absoluteTime p s
      = ((lastEv.absoluteTime.toNat / ticksPerStep p s : Nat) : Int) := by
    unfold ticksToSteps
    conv_lhs => rw [hLn]
    exact (Int.ofNat_fdiv _ _).symm
  have hsr1 : ∀ k : Nat, (stepRange k ms (ticksToSteps lastEv.absoluteTime p s)).1
      = ((k * ms : Nat) : Int) := fun _ => rfl
  have hsr2 : ∀ k : Nat, (stepRange k ms (ticksToSteps lastEv.absoluteTime p s)).2
      = min (((k * ms + ms : Nat)) : Int) (ticksToSteps lastEv.absoluteTime p s) :=
    fun _ => rfl
  by_cases hle : lastEv.absoluteTime ≤ ((maxTicksPerClip ms p s : Nat) : Int)
  · -- degenerate case: one clip, range [0, ticksToSteps lastTick)
    rw [splitEventsBySteps_single hlast hle]
    have hSle : lastEv.absoluteTime.toNat / ticksPerStep p s ≤ ms := by
      have h1 : lastEv.absoluteTime.toNat ≤ ms * ticksPerStep p s := by
        have := hle
        rw [hLn] at this
        exact_mod_cast this
      calc lastEv.absoluteTime.toNat / ticksPerStep p s
          ≤ ms * ticksPerStep p s / ticksPerStep p s := Nat.div_le_div_right h1
        _ = ms := Nat.mul_div_cancel ms htps
    refine ⟨by simp, by simp [hsr1], ?_, ?_, ?_⟩
    · intro k hk
      simp at hk
    · simp only [List.length_singleton, Nat.sub_self, hsr2, hS]
      apply min_eq_right
      apply Int.ofNat_le.mpr
      simpa using hSle
    · intro k hk
      have hk0 : k = 0 := by simpa using hk
      subst hk0
      rw [hsr1, hsr2]
      apply le_min
      · exact Int.ofNat_le.mpr (by omega)
      · rw [hS]
        exact Int.ofNat_le.mpr (by simp)
  · -- splitting case
    have hgt := not_le.mp hle
    rw [splitEventsBySteps_loop hlast hgt]
    have hiff : ∀ k : Nat,
        (k < (splitLoop events (noteLifecycles events) (maxTicksPerClip ms p s)
          lastEv.absoluteTime (lastEv.absoluteTime.toNat + 1) 0).length
          ↔ ((k * maxTicksPerClip ms p s : Nat) : Int) < lastEv.absoluteTime) := by
      intro k
      have h := splitLoop_length_iff events (noteLifecycles events) (maxTicksPerClip ms p s)
        lastEv.absoluteTime hmt (lastEv.absoluteTime.toNat + 1) k 0 (by omega)
      rw [zero_add] at h
      exact h
    have h0 : 0 < (splitLoop events (noteLifecycles events) (maxTicksPerClip ms p s)
        lastEv.absoluteTime (lastEv.absoluteTime.toNat + 1) 0).length := by
      apply (hiff 0).mpr
      have : ((0 * maxTicksPerClip ms p s : Nat) : Int) = 0 := by simp
      rw [this]
      omega
    refine ⟨h0, by simp [hsr1], ?_, ?_, ?_⟩
    · -- consecutive ranges meet
      intro k hk
      have hlt : ((k + 1) * maxTicksPerClip ms p s : Nat) < lastEv.absoluteTime.toNat := by
        have h1 := (hiff (k + 1)).mp (by omega)
        rw [hLn] at h1
        exact_mod_cast h1
      rw [hsr2, hsr1]
      have hmm : k * ms + ms = (k + 1) * ms := (Nat.succ_mul k ms).symm
      rw [hmm, hS]
      apply min_eq_left
      apply Int.ofNat_le.mpr
      rw [Nat.le_div_iff_mul_le htps]
      calc (k + 1) * ms * ticksPerStep p s
          = (k + 1) * maxTicksPerClip ms p s := by
            rw [mul_assoc]
            rfl
        _ ≤ lastEv.absoluteTime.toNat := Nat.le_of_lt hlt
    · -- last range ends at ticksToSteps lastTick
      set n := (splitLoop events (noteLifecycles events) (maxTicksPerClip ms p s)
        lastEv.absoluteTime (lastEv.absoluteTime.toNat + 1) 0).length with hn
      have hnle : lastEv.absoluteTime.toNat ≤ n * maxTicksPerClip ms p s := by
        have hnot : ¬ ((n * maxTicksPerClip ms p s : Nat) : Int) < lastEv.absoluteTime := by
          intro hcon
          exact absurd ((hiff n).mpr hcon) (lt_irrefl n)
        rw [hLn] at hnot
        have := not_lt.mp hnot
        exact_mod_cast this
      have hmm : (n - 1) * ms + ms = n * ms := by
        have hn' : n - 1 + 1 = n := Nat.succ_pred_eq_of_pos h0
        calc (n - 1) * ms + ms = (n - 1 + 1) * ms := (Nat.succ_mul (n - 1) ms).symm
          _ = n * ms := by rw [hn']
      rw [hsr2, hmm, hS]
      apply min_eq_right
      apply Int.ofNat_le.mpr
      calc lastEv.absoluteTime.toNat / ticksPerStep p s
          ≤ n * maxTicksPerClip ms p s / ticksPerStep p s := Nat.div_le_div_right hnle
        _ = n * ms := by
            rw [show n * maxTicksPerClip ms p s = n * ms * ticksPerStep p s by
              rw [mul_assoc]
              rfl]
            exact Nat.mul_div_cancel (n * ms) htps
    · -- each range is non-decreasing
      intro k hk
      have hlt : k * maxTicksPerClip ms p s ≤ lastEv.absoluteTime.toNat := by
        have h1 := (hiff k).mp hk
        rw [hLn] at h1
        exact_mod_cast Int.le_of_lt h1
      rw [hsr1, hsr2]
      apply le_min
      · exact Int.ofNat_le.mpr (by omega)
      · rw [hS]
        apply Int.ofNat_le.mpr
        rw [Nat.le_div_iff_mul_le htps]
        calc k * ms * ticksPerStep p s
            = k * maxTicksPerClip ms p s := by
              rw [mul_assoc]
              rfl
          _ ≤ lastEv.absoluteTime.toNat := hlt

/-- Witness for the amended C3 at the long-note example: two clips, ranges
`[0, 128)` and `[128, 167)` with `167 = floor(20100 / 120)`. -/
theorem c3_step_ranges_tile_witness :
    0 < (splitEventsBySteps exLong 128 480 16).length ∧
    (stepRange ((splitEventsBySteps exLong 128 480 16).length - 1) 128
        (ticksToSteps exOff20100.absoluteTime 480 16)).2
      = ticksToSteps exOff20100.absoluteTime 480 16 :=
  ⟨(c3_step_ranges_tile exLong 128 480 16 exOff20100
      (by decide) (by decide) (by decide) (by decide)).1,
    (c3_step_ranges_tile exLong 128 480 16 exOff20100
      (by decide) (by decide) (by decide) (by decide)).2.2.2.1⟩

end MidiClip
